import Mathlib

/-!
Verification of the `uk_threat_level` integration
(`custom_components/uk_threat_level/`), a fetch-parse-fallback pipeline that
extracts the UK terrorism threat level from two sources.

Shallow embedding conventions:
* Python strings are `List Char`; `chars` converts a Lean string literal.
* The regexes `RE_LEVEL_WORD` and `RE_GOVUK_PHRASE` (both `re.IGNORECASE`) are
  embedded as explicit left-to-right scanning functions.  `\w` (hence `\b`) is
  modelled over the ASCII alphabet: a word character is an ASCII alphanumeric
  character or an underscore; case folding is `Char.toUpper` (ASCII).
* `xml.etree.ElementTree` documents are modelled by the tree type `XmlNode`;
  `ET.fromstring` is an oracle `List Char → Option XmlNode` (`none` models a
  raised `ParseError`).
* The aiohttp session is modelled by a `NetOutcome` per URL; exceptions are
  values of `FetchError` carrying the `str()` of the Python exception.
-/

def chars (s : String) : List Char := s.data

/-- Python `\w` restricted to ASCII: alphanumeric or underscore. -/
def isWordChar (c : Char) : Bool := c.isAlphanum || c == '_'

/-- Case-insensitive literal match: `matchesCI pat s` returns the remainder of
`s` after consuming a prefix that equals `pat` up to ASCII case. -/
def matchesCI : List Char → List Char → Option (List Char)
  | [], s => some s
  | _ :: _, [] => none
  | p :: ps, c :: cs => if c.toUpper = p.toUpper then matchesCI ps cs else none

/-- The trailing `\b` of `RE_LEVEL_WORD`: the remainder must be empty or start
with a non-word character (the matched words end in a word character). -/
def boundaryAfter : List Char → Bool
  | [] => true
  | c :: _ => !isWordChar c

/-- Whether a level word matches at the head of `s`, including the trailing
word boundary. -/
def wholeWordAt (w s : List Char) : Bool :=
  match matchesCI w s with
  | some rest => boundaryAfter rest
  | none => false

/-- The five alternatives of `RE_LEVEL_WORD`, in alternation order
`LOW|MODERATE|SUBSTANTIAL|SEVERE|CRITICAL` (uppercase, as `.upper()` returns
them). -/
def canonicalWords : List (List Char) :=
  [chars "LOW", chars "MODERATE", chars "SUBSTANTIAL", chars "SEVERE", chars "CRITICAL"]

/-- Try the alternation of `RE_LEVEL_WORD` at one position (the leading `\b`
is checked by the caller). -/
def tryWordsAt (s : List Char) : Option (List Char) :=
  canonicalWords.find? (fun w => wholeWordAt w s)

/-- Leftmost search of `RE_LEVEL_WORD`: scan positions left to right; `pw`
records whether the character before the current position is a word character
(the leading `\b` permits a match only when it is not). -/
def searchAux : Bool → List Char → Option (List Char)
  | _, [] => none
  | pw, c :: cs =>
    if pw then searchAux (isWordChar c) cs
    else
      match tryWordsAt (c :: cs) with
      | some w => some w
      | none => searchAux (isWordChar c) cs

/-- `UKThreatLevelCoordinator._normalize_level`: `RE_LEVEL_WORD.search` on the
text, returning the matched group uppercased (`none` models Python `None`). -/
def normalize_level (text : List Char) : Option (List Char) :=
  searchAux false text

example : normalize_level (chars "Current threat level: SUBSTANTIAL") = some (chars "SUBSTANTIAL") := by decide
example : normalize_level (chars "the level was LOWERED today") = none := by decide
example : normalize_level (chars "moderate then severe") = some (chars "MODERATE") := by decide
example : normalize_level (chars "") = none := by decide

/-! ## The structured (MI5 RSS/XML) document model -/

/-- An `xml.etree.ElementTree.Element`: tag name, the `.text` attribute
(`none` models Python `None`), and the child elements in document order. -/
inductive XmlNode where
  | elem (tag : List Char) (text : Option (List Char)) (children : List XmlNode)

def XmlNode.tag : XmlNode → List Char
  | .elem t _ _ => t

def XmlNode.text : XmlNode → Option (List Char)
  | .elem _ tx _ => tx

def XmlNode.children : XmlNode → List XmlNode
  | .elem _ _ cs => cs

mutual

/-- Document-order (preorder) traversal of an element, itself first — the
order of `Element.iter`. -/
def preorder : XmlNode → List XmlNode
  | .elem t tx cs => .elem t tx cs :: preorderList cs

def preorderList : List XmlNode → List XmlNode
  | [] => []
  | n :: ns => preorder n ++ preorderList ns

end

/-- `root.findall(".//title")`: all *proper* descendants of `root` whose tag
is `title`, in document order.  (`ElementPath`'s descendant selector iterates
`elem.iter(tag)` and skips the context element itself, so the root element is
never returned even when its own tag is `title`.) -/
def findall_titles (root : XmlNode) : List XmlNode :=
  (preorderList (XmlNode.children root)).filter (fun n => XmlNode.tag n = chars "title")

/-- The `for title_el in ...` loop body of `_parse_mi5_rss_level`:
`if title_el.text:` (Python truthiness: skips `None` and the empty string),
then `lvl = self._normalize_level(title_el.text)` and `if lvl: return lvl`. -/
def titleLoop : List XmlNode → Option (List Char)
  | [] => none
  | el :: rest =>
    match XmlNode.text el with
    | none => titleLoop rest
    | some tx =>
      if tx = [] then titleLoop rest
      else
        match normalize_level tx with
        | none => titleLoop rest
        | some lvl => if lvl = [] then titleLoop rest else some lvl

/-- `UKThreatLevelCoordinator._parse_mi5_rss_level`.  `parseXml` is the
`ET.fromstring` oracle: `none` models a raised `ET.ParseError`, which the
function catches and turns into `None`. -/
def parse_mi5_rss_level (parseXml : List Char → Option XmlNode)
    (xml_text : List Char) : Option (List Char) :=
  match parseXml xml_text with
  | none => none
  | some root => titleLoop (findall_titles root)

/-- The level one scanned title element contributes (spec reading of §4.2: a
node yields the normalization of its non-empty text, when non-empty).  Used to
state that the parser returns the first non-empty normalization result. -/
def titleYield (el : XmlNode) : Option (List Char) :=
  match XmlNode.text el with
  | none => none
  | some tx =>
    if tx = [] then none
    else
      match normalize_level tx with
      | none => none
      | some lvl => if lvl = [] then none else some lvl

/-! ## The unstructured (GOV.UK) parser -/

/-- Python `\s` restricted to ASCII. -/
def isSpaceChar (c : Char) : Bool :=
  c == ' ' || c == '\t' || c == '\n' || c == '\r' || c == '\x0b' || c == '\x0c'

/-- Drop a maximal run of whitespace. -/
def skipSpaces : List Char → List Char
  | [] => []
  | c :: cs => if isSpaceChar c then skipSpaces cs else c :: cs

/-- `\s+`: require at least one whitespace character, then drop the maximal
run.  (Greedy matching is complete here: the following alternatives all begin
with letters, so no backtracking into the whitespace run can succeed.) -/
def spaces1 : List Char → Option (List Char)
  | [] => none
  | c :: cs => if isSpaceChar c then some (skipSpaces cs) else none

/-- The literal part of `RE_GOVUK_PHRASE`. -/
def anchorChars : List Char := chars "from terrorism is"

/-- One attempted match of `RE_GOVUK_PHRASE` at a fixed position: the literal
anchor (case-insensitively), `\s+`, then the level-word alternation with its
trailing `\b`; returns the captured group (the level word as it appears in the
text). -/
def govukMatchAt (s : List Char) : Option (List Char) :=
  match matchesCI anchorChars s with
  | none => none
  | some rest =>
    match spaces1 rest with
    | none => none
    | some rest2 =>
      match canonicalWords.find? (fun w => wholeWordAt w rest2) with
      | none => none
      | some w => some (rest2.take w.length)

/-- Leftmost search of `RE_GOVUK_PHRASE`. -/
def govukSearch : List Char → Option (List Char)
  | [] => none
  | c :: cs =>
    match govukMatchAt (c :: cs) with
    | some g => some g
    | none => govukSearch cs

/-- `UKThreatLevelCoordinator._parse_govuk_level`: search `RE_GOVUK_PHRASE`,
return `None` on no match, else `_normalize_level(m.group(1))`. -/
def parse_govuk_level (html_text : List Char) : Option (List Char) :=
  match govukSearch html_text with
  | none => none
  | some g => normalize_level g

example : parse_govuk_level (chars "The threat to the UK from terrorism is severe.") = some (chars "SEVERE") := by decide
example : parse_govuk_level (chars "terrorism is bad") = none := by decide
example : parse_govuk_level (chars "the danger from terrorism is low today") = some (chars "LOW") := by decide

/-- Case-insensitive substring containment (used to state that a phrase is
absent from a page). -/
def containsCI (pat : List Char) : List Char → Bool
  | [] => (matchesCI pat []).isSome
  | c :: cs => (matchesCI pat (c :: cs)).isSome || containsCI pat cs

/-! ## Constants (`const.py`) -/

def MI5_RSS_URL : List Char := chars "https://www.mi5.gov.uk/UKThreatLevel/UKThreatLevel.xml"

def GOVUK_URL : List Char := chars "https://www.gov.uk/terrorism-national-emergency"

/-- `LEVEL_TO_NUMBER`, as the ordered association list of `const.py`. -/
def LEVEL_TO_NUMBER : List (List Char × Nat) :=
  [(chars "LOW", 1), (chars "MODERATE", 2), (chars "SUBSTANTIAL", 3),
   (chars "SEVERE", 4), (chars "CRITICAL", 5)]

/-- Python dict lookup on the association list. -/
def dictGet (k : List Char) : List (List Char × Nat) → Option Nat
  | [] => none
  | (k2, n) :: rest => if k = k2 then some n else dictGet k rest

/-- The pipeline's guard `level and level in LEVEL_TO_NUMBER`: the level value
is truthy (non-`None`, non-empty) and a key of the dict. -/
def levelOk (lvl : Option (List Char)) : Bool :=
  match lvl with
  | none => false
  | some l => !l.isEmpty && (dictGet l LEVEL_TO_NUMBER).isSome

/-! ## The fetch client (`_fetch_text`) -/

/-- What the network does for one GET: either an HTTP response (final status
after redirect following, and body text) or a raised transport error
(`msg` is the `str()` of the aiohttp exception). -/
inductive NetOutcome where
  | response (status : Nat) (body : List Char)
  | transportError (msg : List Char)
deriving DecidableEq

/-- The exceptions `_fetch_text` can raise, each carrying the `str()` of the
Python exception: `forbidden` is the `UpdateFailed` raised on 403, `httpError`
the `ClientResponseError` from `resp.raise_for_status()`, `networkError` a
transport-level failure from `session.get`. -/
inductive FetchError where
  | forbidden (msg : List Char)
  | httpError (msg : List Char)
  | networkError (msg : List Char)
deriving DecidableEq

def FetchError.message : FetchError → List Char
  | .forbidden m => m
  | .httpError m => m
  | .networkError m => m

/-- The message of the `UpdateFailed` raised on a 403 (source line 74). -/
def forbiddenMessage (url : List Char) : List Char :=
  chars "403 Forbidden from " ++ url ++ chars " (likely WAF/User-Agent filtering)"

/-- `UKThreatLevelCoordinator._fetch_text`, as a function of the network's
behaviour.  `raise_for_status` of aiohttp raises exactly when the status is
`>= 400` (`ClientResponse.ok` is `400 > status`); `httpErrText` abstracts that
library's rendering of the raised `ClientResponseError` (external to this
repository, so left as a parameter). -/
def fetch_text (httpErrText : Nat → List Char) (url : List Char)
    (o : NetOutcome) : Except FetchError (List Char) :=
  match o with
  | .transportError m => .error (.networkError m)
  | .response status body =>
    if status = 403 then .error (.forbidden (forbiddenMessage url))
    else if 400 ≤ status then .error (.httpError (httpErrText status))
    else .ok body

/-! ## The update pipeline (`_async_update_data`) -/

/-- One cycle's environment: the network outcome at each of the two URLs, the
`ET.fromstring` oracle, and the external exception-message rendering. -/
structure World where
  mi5 : NetOutcome
  govuk : NetOutcome
  parseXml : List Char → Option XmlNode
  httpErrText : Nat → List Char

/-- The outcome of `_async_update_data`: the returned dict
`{"level": .., "number": .., "source": ..}`, or the raised `UpdateFailed`
carrying its message. -/
inductive UpdateResult where
  | data (level : List Char) (number : Nat) (source : List Char)
  | failed (msg : List Char)
deriving DecidableEq

/-- The second `try` block of `_async_update_data` (the GOV.UK fallback):
every exception raised inside it — a fetch failure or the
`UpdateFailed("Fetched GOV.UK but could not parse a known level")` raised when
the parse guard fails — is caught by its own `except` clause and re-raised as
`UpdateFailed(f"All sources failed: {err}")`. -/
def govukAttempt (w : World) : UpdateResult :=
  match fetch_text w.httpErrText GOVUK_URL w.govuk with
  | .error e => .failed (chars "All sources failed: " ++ FetchError.message e)
  | .ok html_text =>
    match parse_govuk_level html_text with
    | none => .failed (chars "All sources failed: Fetched GOV.UK but could not parse a known level")
    | some lvl =>
      if lvl = [] then .failed (chars "All sources failed: Fetched GOV.UK but could not parse a known level")
      else
        match dictGet lvl LEVEL_TO_NUMBER with
        | some n => .data lvl n GOVUK_URL
        | none => .failed (chars "All sources failed: Fetched GOV.UK but could not parse a known level")

/-- `UKThreatLevelCoordinator._async_update_data`, instrumented with the list
of URLs fetched, in order.  The first `try` block fetches the MI5 feed and
returns a reading when the parsed level passes the guard; any fetch failure,
or a guard failure, falls through (after a logged warning) to the GOV.UK
block, which performs exactly one further fetch. -/
def updateCycle (w : World) : UpdateResult × List (List Char) :=
  let secondary := (govukAttempt w, [MI5_RSS_URL, GOVUK_URL])
  match fetch_text w.httpErrText MI5_RSS_URL w.mi5 with
  | .error _ => secondary
  | .ok xml_text =>
    match parse_mi5_rss_level w.parseXml xml_text with
    | none => secondary
    | some lvl =>
      if lvl = [] then secondary
      else
        match dictGet lvl LEVEL_TO_NUMBER with
        | some n => (.data lvl n MI5_RSS_URL, [MI5_RSS_URL])
        | none => secondary

/-- The result `_async_update_data` hands to the coordinator. -/
def async_update_data (w : World) : UpdateResult :=
  (updateCycle w).1

/-- The level the primary (MI5) attempt produces: `none` when the fetch fails
or the parse finds nothing. -/
def primaryLevel (w : World) : Option (List Char) :=
  match fetch_text w.httpErrText MI5_RSS_URL w.mi5 with
  | .error _ => none
  | .ok xml_text => parse_mi5_rss_level w.parseXml xml_text

/-- Whether the primary attempt produced a level passing the pipeline's
guard (otherwise the primary attempt is exhausted). -/
def primaryKnown (w : World) : Bool :=
  levelOk (primaryLevel w)

/-- The level the secondary (GOV.UK) attempt's parse produces. -/
def secondaryLevel (w : World) : Option (List Char) :=
  match fetch_text w.httpErrText GOVUK_URL w.govuk with
  | .error _ => none
  | .ok html_text => parse_govuk_level html_text

/-! ## Occurrence predicates (the spec's reading of whole-word matching) -/

/-- Whether the character just before position `i` is a word character; at
position `0` this is the scanner's carried flag `pw` (for a whole text,
`false`: the start of the string is a word boundary). -/
def prevCharAt (pw : Bool) (s : List Char) : Nat → Bool
  | 0 => pw
  | j + 1 =>
    match s.get? j with
    | some c => isWordChar c
    | none => true

/-- A case-insensitive whole-word occurrence of `w` at position `i` of `s`:
a word boundary before `i`, the word matches up to case, and a word boundary
follows it. -/
def occursAt (pw : Bool) (s w : List Char) (i : Nat) : Bool :=
  !prevCharAt pw s i && wholeWordAt w (s.drop i)

theorem prevCharAt_cons (pw : Bool) (c : Char) (cs : List Char) (i : Nat) :
    prevCharAt pw (c :: cs) (i + 1) = prevCharAt (isWordChar c) cs i := by
  cases i with
  | zero => rfl
  | succ j => rfl

theorem occursAt_cons (pw : Bool) (c : Char) (cs w : List Char) (i : Nat) :
    occursAt pw (c :: cs) w (i + 1) = occursAt (isWordChar c) cs w i := by
  simp [occursAt, prevCharAt_cons]

theorem occursAt_zero (pw : Bool) (s w : List Char) :
    occursAt pw s w 0 = (!pw && wholeWordAt w s) := rfl

theorem canonical_ne_nil : ∀ w ∈ canonicalWords, w ≠ [] := by decide

theorem canonical_upper : ∀ w ∈ canonicalWords, w.map Char.toUpper = w := by decide

theorem canonical_take_eq : ∀ w1 ∈ canonicalWords, ∀ w2 ∈ canonicalWords,
    w1 = List.take w1.length w2 → w1 = w2 := by decide

theorem wholeWordAt_nil {w : List Char} (hw : w ≠ []) : wholeWordAt w [] = false := by
  cases w with
  | nil => exact absurd rfl hw
  | cons p ps => rfl

theorem matchesCI_some_take : ∀ (w s r : List Char), matchesCI w s = some r →
    (s.take w.length).map Char.toUpper = w.map Char.toUpper ∧ r = s.drop w.length := by
  intro w
  induction w with
  | nil =>
    intro s r h
    simp [matchesCI] at h
    subst h
    simp
  | cons p ps ih =>
    intro s r h
    cases s with
    | nil => simp [matchesCI] at h
    | cons c cs =>
      by_cases hc : c.toUpper = p.toUpper
      · simp only [matchesCI, if_pos hc] at h
        obtain ⟨h1, h2⟩ := ih cs r h
        refine ⟨?_, by simpa using h2⟩
        simp [hc, h1]
      · simp [matchesCI, hc] at h

theorem matchesCI_of_take : ∀ (w s : List Char),
    (s.take w.length).map Char.toUpper = w.map Char.toUpper →
    matchesCI w s = some (s.drop w.length) := by
  intro w
  induction w with
  | nil => intro s _; simp [matchesCI]
  | cons p ps ih =>
    intro s h
    cases s with
    | nil => simp at h
    | cons c cs =>
      simp only [List.length_cons, List.take_succ_cons, List.map_cons, List.cons.injEq] at h
      obtain ⟨h1, h2⟩ := h
      simp [matchesCI, h1, ih cs h2]

/-- At a fixed position, at most one of the five level words can make a
whole-word match (none is a prefix of another). -/
theorem wholeWordAt_unique {w1 w2 s : List Char} (h1m : w1 ∈ canonicalWords)
    (h2m : w2 ∈ canonicalWords) (h1 : wholeWordAt w1 s = true)
    (h2 : wholeWordAt w2 s = true) : w1 = w2 := by
  have e1 : ∃ r, matchesCI w1 s = some r := by
    cases hm : matchesCI w1 s with
    | none => simp [wholeWordAt, hm] at h1
    | some r => exact ⟨r, rfl⟩
  have e2 : ∃ r, matchesCI w2 s = some r := by
    cases hm : matchesCI w2 s with
    | none => simp [wholeWordAt, hm] at h2
    | some r => exact ⟨r, rfl⟩
  obtain ⟨r1, hm1⟩ := e1
  obtain ⟨r2, hm2⟩ := e2
  have t1 : (s.take w1.length).map Char.toUpper = w1 := by
    rw [(matchesCI_some_take _ _ _ hm1).1, canonical_upper w1 h1m]
  have t2 : (s.take w2.length).map Char.toUpper = w2 := by
    rw [(matchesCI_some_take _ _ _ hm2).1, canonical_upper w2 h2m]
  have u1 : w1 = (s.map Char.toUpper).take w1.length := by
    rw [← List.map_take, t1]
  have u2 : w2 = (s.map Char.toUpper).take w2.length := by
    rw [← List.map_take, t2]
  rcases Nat.le_total w1.length w2.length with hle | hle
  · refine canonical_take_eq w1 h1m w2 h2m ?_
    calc w1 = (s.map Char.toUpper).take w1.length := u1
      _ = ((s.map Char.toUpper).take w2.length).take w1.length := by
          rw [List.take_take, Nat.min_eq_left hle]
      _ = List.take w1.length w2 := by rw [← u2]
  · refine (canonical_take_eq w2 h2m w1 h1m ?_).symm
    calc w2 = (s.map Char.toUpper).take w2.length := u2
      _ = ((s.map Char.toUpper).take w1.length).take w2.length := by
          rw [List.take_take, Nat.min_eq_left hle]
      _ = List.take w2.length w1 := by rw [← u1]

theorem tryWordsAt_some {s w : List Char} (h : tryWordsAt s = some w) :
    w ∈ canonicalWords ∧ wholeWordAt w s = true := by
  unfold tryWordsAt at h
  have hp := List.find?_some h
  exact ⟨List.mem_of_find?_eq_some h, by simpa using hp⟩

theorem tryWordsAt_none {s : List Char} (h : tryWordsAt s = none) :
    ∀ w ∈ canonicalWords, wholeWordAt w s = false := by
  unfold tryWordsAt at h
  intro w hw
  simpa using List.find?_eq_none.mp h w hw

theorem searchAux_none_sound : ∀ (s : List Char) (pw : Bool), searchAux pw s = none →
    ∀ w ∈ canonicalWords, ∀ i, occursAt pw s w i = false := by
  intro s
  induction s with
  | nil =>
    intro pw _ w hw i
    simp [occursAt, wholeWordAt_nil (canonical_ne_nil w hw)]
  | cons c cs ih =>
    intro pw h w hw i
    cases pw with
    | true =>
      simp only [searchAux, if_true] at h
      cases i with
      | zero => simp [occursAt_zero]
      | succ j =>
        rw [occursAt_cons]
        exact ih (isWordChar c) h w hw j
    | false =>
      cases htr : tryWordsAt (c :: cs) with
      | some w0 => simp [searchAux, htr] at h
      | none =>
        simp [searchAux, htr] at h
        cases i with
        | zero =>
          rw [occursAt_zero]
          simp [tryWordsAt_none htr w hw]
        | succ j =>
          rw [occursAt_cons]
          exact ih (isWordChar c) h w hw j

theorem searchAux_some_sound : ∀ (s : List Char) (pw : Bool) (w : List Char),
    searchAux pw s = some w →
    w ∈ canonicalWords ∧ ∃ i, occursAt pw s w i = true ∧
      ∀ j, j < i → ∀ w2 ∈ canonicalWords, occursAt pw s w2 j = false := by
  intro s
  induction s with
  | nil => intro pw w h; simp [searchAux] at h
  | cons c cs ih =>
    intro pw w h
    cases pw with
    | true =>
      simp only [searchAux, if_true] at h
      obtain ⟨hm, i, hi, hmin⟩ := ih (isWordChar c) w h
      refine ⟨hm, i + 1, ?_, ?_⟩
      · rw [occursAt_cons]; exact hi
      · intro j hj w2 hw2
        cases j with
        | zero => simp [occursAt_zero]
        | succ k =>
          rw [occursAt_cons]
          exact hmin k (by omega) w2 hw2
    | false =>
      cases htr : tryWordsAt (c :: cs) with
      | some w0 =>
        have hw0 : w0 = w := by simpa [searchAux, htr] using h
        subst hw0
        obtain ⟨hm, hww⟩ := tryWordsAt_some htr
        refine ⟨hm, 0, ?_, ?_⟩
        · rw [occursAt_zero]; simp [hww]
        · intro j hj
          exact absurd hj (Nat.not_lt_zero j)
      | none =>
        simp [searchAux, htr] at h
        obtain ⟨hm, i, hi, hmin⟩ := ih (isWordChar c) w h
        refine ⟨hm, i + 1, ?_, ?_⟩
        · rw [occursAt_cons]; exact hi
        · intro j hj w2 hw2
          cases j with
          | zero =>
            rw [occursAt_zero]
            simp [tryWordsAt_none htr w2 hw2]
          | succ k =>
            rw [occursAt_cons]
            exact hmin k (by omega) w2 hw2

/-- A level the Normalizer returns is always one of the five canonical
words. -/
theorem normalize_canonical {t w : List Char} (h : normalize_level t = some w) :
    w ∈ canonicalWords :=
  (searchAux_some_sound t false w h).1

theorem occursAt_wholeWord {pw : Bool} {s w : List Char} {i : Nat}
    (h : occursAt pw s w i = true) : wholeWordAt w (s.drop i) = true := by
  unfold occursAt at h
  simp only [Bool.and_eq_true] at h
  exact h.2

/-- C2: `_normalize_level` returns the canonical level whose name is the
leftmost case-insensitive whole-word occurrence of any of the five level
names in the text (first occurrence wins; occurrences embedded inside longer
words do not count, by the word-boundary conditions of `occursAt`), and
returns `None` exactly when no such whole-word occurrence exists. -/
theorem c2_normalizer_leftmost_word (text w : List Char) :
    (normalize_level text = some w →
      w ∈ canonicalWords ∧
      ∃ i, occursAt false text w i = true ∧
        (∀ j, j < i → ∀ w2 ∈ canonicalWords, occursAt false text w2 j = false) ∧
        (∀ w2 ∈ canonicalWords, occursAt false text w2 i = true → w2 = w)) ∧
    (normalize_level text = none →
      ∀ w2 ∈ canonicalWords, ∀ i, occursAt false text w2 i = false) := by
  constructor
  · intro h
    obtain ⟨hm, i, hi, hmin⟩ := searchAux_some_sound text false w h
    refine ⟨hm, i, hi, hmin, ?_⟩
    intro w2 hw2 hocc
    exact wholeWordAt_unique hw2 hm (occursAt_wholeWord hocc) (occursAt_wholeWord hi)
  · intro h w2 hw2 i
    exact searchAux_none_sound text false h w2 hw2 i

/-- Witness for C2 at a concrete text: `LOWERED` is skipped (no whole-word
match) and the leftmost true occurrence, `severe`, wins over the later
`LOW`. -/
theorem c2_witness : (chars "SEVERE") ∈ canonicalWords ∧
    (∃ i, occursAt false (chars "Alert was LOWERED to severe; LOW supplies")
      (chars "SEVERE") i = true) := by
  obtain ⟨hm, i, hi, -, -⟩ :=
    (c2_normalizer_leftmost_word (chars "Alert was LOWERED to severe; LOW supplies")
      (chars "SEVERE")).1 (by decide)
  exact ⟨hm, i, hi⟩

/-! ## Characterization of the GOV.UK search -/

theorem govukSearch_none_sound : ∀ (s : List Char), govukSearch s = none →
    ∀ i, govukMatchAt (s.drop i) = none := by
  intro s
  induction s with
  | nil =>
    intro _ i
    simp only [List.drop_nil]
    decide
  | cons c cs ih =>
    intro h i
    cases hm : govukMatchAt (c :: cs) with
    | some g => simp [govukSearch, hm] at h
    | none =>
      simp [govukSearch, hm] at h
      cases i with
      | zero => simpa using hm
      | succ j => simpa using ih h j

theorem govukSearch_some_sound : ∀ (s g : List Char), govukSearch s = some g →
    ∃ i, govukMatchAt (s.drop i) = some g ∧
      ∀ j, j < i → govukMatchAt (s.drop j) = none := by
  intro s
  induction s with
  | nil => intro g h; simp [govukSearch] at h
  | cons c cs ih =>
    intro g h
    cases hm : govukMatchAt (c :: cs) with
    | some g0 =>
      have hg : g0 = g := by simpa [govukSearch, hm] using h
      subst hg
      exact ⟨0, by simpa using hm, fun j hj => absurd hj (Nat.not_lt_zero j)⟩
    | none =>
      simp [govukSearch, hm] at h
      obtain ⟨i, hi, hmin⟩ := ih g h
      refine ⟨i + 1, by simpa using hi, ?_⟩
      intro j hj
      cases j with
      | zero => simpa using hm
      | succ k => simpa using hmin k (by omega)

/-- A successful match of `RE_GOVUK_PHRASE` captures exactly one canonical
level word (up to case), and normalizing the captured group yields that
word. -/
theorem govukMatchAt_some {s g : List Char} (h : govukMatchAt s = some g) :
    ∃ w ∈ canonicalWords, g.map Char.toUpper = w ∧ normalize_level g = some w := by
  unfold govukMatchAt at h
  cases ha : matchesCI anchorChars s with
  | none => simp [ha] at h
  | some rest =>
    simp only [ha] at h
    cases hs : spaces1 rest with
    | none => simp [hs] at h
    | some rest2 =>
      simp only [hs] at h
      cases hf : canonicalWords.find? (fun w => wholeWordAt w rest2) with
      | none => simp [hf] at h
      | some w =>
        simp only [hf, Option.some.injEq] at h
        have hw : w ∈ canonicalWords := List.mem_of_find?_eq_some hf
        have hww : wholeWordAt w rest2 = true := by simpa using List.find?_some hf
        have e : ∃ r, matchesCI w rest2 = some r := by
          cases hmr : matchesCI w rest2 with
          | none => simp [wholeWordAt, hmr] at hww
          | some r => exact ⟨r, rfl⟩
        obtain ⟨r, hmr⟩ := e
        have ht : (rest2.take w.length).map Char.toUpper = w := by
          rw [(matchesCI_some_take _ _ _ hmr).1, canonical_upper w hw]
        subst h
        refine ⟨w, hw, ht, ?_⟩
        have hlen : (rest2.take w.length).length = w.length := by
          have := congrArg List.length ht
          simpa using this
        have hmg : matchesCI w (rest2.take w.length) = some [] := by
          have h1 : ((rest2.take w.length).take w.length).map Char.toUpper
              = w.map Char.toUpper := by
            rw [List.take_take, Nat.min_self, ht, canonical_upper w hw]
          have h2 := matchesCI_of_take w (rest2.take w.length) h1
          rwa [List.drop_eq_nil_of_le (le_of_eq hlen)] at h2
        have hwwg : wholeWordAt w (rest2.take w.length) = true := by
          simp [wholeWordAt, hmg, boundaryAfter]
        have hne : rest2.take w.length ≠ [] := by
          intro hnil
          have : w.length = 0 := by
            rw [← hlen, hnil]
            rfl
          exact canonical_ne_nil w hw (List.eq_nil_of_length_eq_zero this)
        cases hg : rest2.take w.length with
        | nil => exact absurd hg hne
        | cons c0 cs0 =>
          rw [hg] at hwwg
          cases htr : tryWordsAt (c0 :: cs0) with
          | none => simp [tryWordsAt_none htr w hw] at hwwg
          | some w2 =>
            obtain ⟨hw2, hww2⟩ := tryWordsAt_some htr
            have : w2 = w := wholeWordAt_unique hw2 hw hww2 hwwg
            subst this
            simp [normalize_level, hg, searchAux, htr]

/-- When `_parse_govuk_level` returns a level, the pattern matched at a
leftmost position and the level is the uppercased captured word. -/
theorem parse_govuk_some {t lvl : List Char} (h : parse_govuk_level t = some lvl) :
    lvl ∈ canonicalWords ∧ ∃ i cap, govukMatchAt (t.drop i) = some cap ∧
      (∀ j, j < i → govukMatchAt (t.drop j) = none) ∧
      cap.map Char.toUpper = lvl := by
  unfold parse_govuk_level at h
  cases hs : govukSearch t with
  | none => simp [hs] at h
  | some g =>
    simp only [hs] at h
    obtain ⟨i, hi, hmin⟩ := govukSearch_some_sound t g hs
    obtain ⟨w, hw, hmap, hnorm⟩ := govukMatchAt_some hi
    have : lvl = w := by
      rw [h] at hnorm
      injection hnorm
    subst this
    exact ⟨hw, i, g, hi, hmin, hmap⟩

/-- When `_parse_govuk_level` returns `None`, the pattern matches at no
position of the text. -/
theorem parse_govuk_none {t : List Char} (h : parse_govuk_level t = none) :
    ∀ i, govukMatchAt (t.drop i) = none := by
  unfold parse_govuk_level at h
  cases hs : govukSearch t with
  | none => exact govukSearch_none_sound t hs
  | some g =>
    simp only [hs] at h
    obtain ⟨i, hi, -⟩ := govukSearch_some_sound t g hs
    obtain ⟨w, -, -, hnorm⟩ := govukMatchAt_some hi
    rw [h] at hnorm
    cases hnorm

/-- C3 counterexample: the code's anchor is only `from terrorism is` — on a
page that never mentions `threat to the UK`, `_parse_govuk_level`
nevertheless returns a level, so the claim that the parser returns a level
only when the anchored phrase `threat to the UK ... from terrorism is` is
present is false on this input. -/
theorem c3_counterexample :
    parse_govuk_level (chars "the danger from terrorism is low today")
      = some (chars "LOW") ∧
    containsCI (chars "threat to the UK")
      (chars "the danger from terrorism is low today") = false := by
  decide

/-- C3 (amended): `_parse_govuk_level` returns a level exactly when the
anchor `from terrorism is`, followed by whitespace and a level word with a
trailing word boundary, occurs in the text; it returns the normalization
(the uppercase form) of the level word following the leftmost such
occurrence, and `None` when the anchored pattern occurs nowhere. -/
theorem c3_govuk_anchor (text : List Char) :
    (parse_govuk_level text = none → ∀ i, govukMatchAt (text.drop i) = none) ∧
    (∀ lvl, parse_govuk_level text = some lvl →
      lvl ∈ canonicalWords ∧ ∃ i cap, govukMatchAt (text.drop i) = some cap ∧
        (∀ j, j < i → govukMatchAt (text.drop j) = none) ∧
        cap.map Char.toUpper = lvl) :=
  ⟨fun h => parse_govuk_none h, fun _ h => parse_govuk_some h⟩

/-- Witness for C3 (amended) on the GOV.UK wording. -/
theorem c3_witness :
    (chars "SUBSTANTIAL") ∈ canonicalWords ∧
    (∃ i cap, govukMatchAt
      ((chars "The threat to the UK from terrorism is substantial.").drop i)
        = some cap) := by
  obtain ⟨hm, i, cap, hi, -, -⟩ :=
    (c3_govuk_anchor (chars "The threat to the UK from terrorism is substantial.")).2
      (chars "SUBSTANTIAL") (by decide)
  exact ⟨hm, i, cap, hi⟩

/-! ## The structured-feed parser theorems -/

theorem titleLoop_eq_head : ∀ (l : List XmlNode),
    titleLoop l = (l.filterMap titleYield).head? := by
  intro l
  induction l with
  | nil => rfl
  | cons el rest ih =>
    cases htx : XmlNode.text el with
    | none => simp [titleLoop, titleYield, htx, List.filterMap_cons, ih]
    | some tx =>
      by_cases hnil : tx = []
      · simp [titleLoop, titleYield, htx, hnil, List.filterMap_cons, ih]
      · cases hn : normalize_level tx with
        | none => simp [titleLoop, titleYield, htx, hnil, hn, List.filterMap_cons, ih]
        | some lvl =>
          by_cases hl : lvl = []
          · simp [titleLoop, titleYield, htx, hnil, hn, hl, List.filterMap_cons, ih]
          · simp [titleLoop, titleYield, htx, hnil, hn, hl, List.filterMap_cons]

/-- C6: on malformed input (`ET.fromstring` raises, modelled by the oracle
returning `none`) the structured-feed parser returns `None` rather than
propagating an error; on a well-formed document it scans the title elements
in document order and returns the first non-empty normalization result
(`head?` of the per-title yields), or `None` when no title yields a level. -/
theorem c6_feed_parser_total (px : List Char → Option XmlNode) (t : List Char) :
    (px t = none → parse_mi5_rss_level px t = none) ∧
    (∀ root, px t = some root →
      parse_mi5_rss_level px t = ((findall_titles root).filterMap titleYield).head?) := by
  constructor
  · intro h
    simp [parse_mi5_rss_level, h]
  · intro root h
    simp [parse_mi5_rss_level, h, titleLoop_eq_head]

/-- A demonstration feed document: the first title has no level word and is
skipped, the second carries the level. -/
def docRss : XmlNode :=
  .elem (chars "rss") none
    [.elem (chars "channel") none
      [.elem (chars "title") (some (chars "UK Threat Level")) [],
       .elem (chars "item") none
         [.elem (chars "title") (some (chars "Current threat level: SUBSTANTIAL")) []]]]

/-- An `ET.fromstring` oracle recognizing one concrete document. -/
def pxDemo : List Char → Option XmlNode :=
  fun s => if s = chars "feed-xml" then some docRss else none

/-- Witness for C6 at a concrete well-formed document. -/
theorem c6_witness :
    parse_mi5_rss_level pxDemo (chars "feed-xml")
      = ((findall_titles docRss).filterMap titleYield).head? :=
  (c6_feed_parser_total pxDemo (chars "feed-xml")).2 docRss (by simp [pxDemo])

/-- C10: `findall(".//title")` scans only title elements strictly below the
document root, so a document whose root element is itself a `title` carrying
a level word — while no scanned title yields a level — parses to `None`; and
the scan loop skips title elements whose text is empty or absent. -/
theorem c10_root_excluded (px : List Char → Option XmlNode) (t : List Char)
    (root : XmlNode) (hpx : px t = some root)
    (_htag : XmlNode.tag root = chars "title")
    (_htxt : ∃ tx, XmlNode.text root = some tx ∧ normalize_level tx ≠ none)
    (hothers : ∀ el ∈ findall_titles root, titleYield el = none) :
    parse_mi5_rss_level px t = none ∧
    (∀ el rest, XmlNode.text el = some [] → titleLoop (el :: rest) = titleLoop rest) ∧
    (∀ el rest, XmlNode.text el = none → titleLoop (el :: rest) = titleLoop rest) := by
  refine ⟨?_, ?_, ?_⟩
  · simp only [parse_mi5_rss_level, hpx]
    rw [titleLoop_eq_head]
    have hnil : (findall_titles root).filterMap titleYield = [] := by
      rw [List.filterMap_eq_nil_iff]
      exact hothers
    rw [hnil]
    rfl
  · intro el rest h
    simp [titleLoop, h]
  · intro el rest h
    simp [titleLoop, h]

/-- A document whose root is itself a `<title>` with a level word; its only
descendant title has no level word. -/
def docRootTitle : XmlNode :=
  .elem (chars "title") (some (chars "Current threat level: CRITICAL"))
    [.elem (chars "title") (some (chars "news update")) []]

/-- An `ET.fromstring` oracle recognizing `docRootTitle`. -/
def pxRootTitle : List Char → Option XmlNode :=
  fun s => if s = chars "root-title-xml" then some docRootTitle else none

/-- Witness for C10: the root title's own level word is never scanned. -/
theorem c10_witness :
    parse_mi5_rss_level pxRootTitle (chars "root-title-xml") = none :=
  (c10_root_excluded pxRootTitle (chars "root-title-xml") docRootTitle
    (by simp [pxRootTitle]) rfl
    ⟨chars "Current threat level: CRITICAL", rfl, by decide⟩ (by decide)).1

/-! ## Closed-vocabulary facts and pipeline lemmas -/

theorem canonical_dict_bounds : ∀ wd ∈ canonicalWords, ∀ k,
    dictGet wd LEVEL_TO_NUMBER = some k → 1 ≤ k ∧ k ≤ 5 := by decide

theorem canonical_dict_isSome : ∀ wd ∈ canonicalWords,
    (dictGet wd LEVEL_TO_NUMBER).isSome = true := by decide

theorem canonical_levelOk : ∀ wd ∈ canonicalWords, levelOk (some wd) = true := by decide

theorem titleLoop_canonical : ∀ (l : List XmlNode) (lvl : List Char),
    titleLoop l = some lvl → lvl ∈ canonicalWords := by
  intro l
  induction l with
  | nil => intro lvl h; simp [titleLoop] at h
  | cons el rest ih =>
    intro lvl h
    cases htx : XmlNode.text el with
    | none =>
      simp only [titleLoop, htx] at h
      exact ih lvl h
    | some tx =>
      by_cases hnil : tx = []
      · simp only [titleLoop, htx, if_pos hnil] at h
        exact ih lvl h
      · cases hn : normalize_level tx with
        | none =>
          simp only [titleLoop, htx, if_neg hnil, hn] at h
          exact ih lvl h
        | some l0 =>
          by_cases hl0 : l0 = []
          · simp only [titleLoop, htx, if_neg hnil, hn, if_pos hl0] at h
            exact ih lvl h
          · simp only [titleLoop, htx, if_neg hnil, hn, if_neg hl0,
              Option.some.injEq] at h
            subst h
            exact normalize_canonical hn

theorem parse_mi5_canonical {px : List Char → Option XmlNode} {t lvl : List Char}
    (h : parse_mi5_rss_level px t = some lvl) : lvl ∈ canonicalWords := by
  unfold parse_mi5_rss_level at h
  cases hp : px t with
  | none => rw [hp] at h; cases h
  | some root =>
    rw [hp] at h
    exact titleLoop_canonical _ lvl h

theorem parse_govuk_canonical {t lvl : List Char}
    (h : parse_govuk_level t = some lvl) : lvl ∈ canonicalWords :=
  (parse_govuk_some h).1

theorem primaryLevel_canonical {w : World} {lvl : List Char}
    (h : primaryLevel w = some lvl) : lvl ∈ canonicalWords := by
  unfold primaryLevel at h
  cases hf : fetch_text w.httpErrText MI5_RSS_URL w.mi5 with
  | error e => rw [hf] at h; cases h
  | ok xml => rw [hf] at h; exact parse_mi5_canonical h

theorem levelOk_true {lvl : Option (List Char)} (h : levelOk lvl = true) :
    ∃ l, lvl = some l ∧ l ≠ [] ∧ ∃ n, dictGet l LEVEL_TO_NUMBER = some n := by
  cases lvl with
  | none => simp [levelOk] at h
  | some l =>
    simp only [levelOk, Bool.and_eq_true] at h
    obtain ⟨h1, h2⟩ := h
    refine ⟨l, rfl, ?_, Option.isSome_iff_exists.mp h2⟩
    intro hnil
    subst hnil
    simp at h1

theorem levelOk_false_some {l : List Char} (h : levelOk (some l) = false) :
    l = [] ∨ dictGet l LEVEL_TO_NUMBER = none := by
  by_cases hnil : l = []
  · exact Or.inl hnil
  · right
    cases hd : dictGet l LEVEL_TO_NUMBER with
    | none => rfl
    | some n =>
      exfalso
      simp [levelOk, hd, List.isEmpty_iff] at h
      exact hnil h

/-- When the primary attempt is exhausted, the cycle is exactly the GOV.UK
attempt, and both URLs are fetched in order. -/
theorem updateCycle_secondary (w : World) (hp : primaryKnown w = false) :
    updateCycle w = (govukAttempt w, [MI5_RSS_URL, GOVUK_URL]) := by
  unfold primaryKnown primaryLevel at hp
  cases hf : fetch_text w.httpErrText MI5_RSS_URL w.mi5 with
  | error e => simp [updateCycle, hf]
  | ok xml =>
    simp only [hf] at hp
    cases hp2 : parse_mi5_rss_level w.parseXml xml with
    | none => simp [updateCycle, hf, hp2]
    | some lvl =>
      rw [hp2] at hp
      by_cases hnil : lvl = []
      · simp [updateCycle, hf, hp2, hnil]
      · cases hd : dictGet lvl LEVEL_TO_NUMBER with
        | none => simp [updateCycle, hf, hp2, hnil, hd]
        | some n =>
          exfalso
          simp [levelOk, hd, List.isEmpty_iff] at hp
          exact hnil hp

/-- When the primary attempt produces a guard-passing level, the cycle
returns the primary reading after a single fetch. -/
theorem updateCycle_primary (w : World) (lvl : List Char) (n : Nat)
    (hl : primaryLevel w = some lvl) (hne : lvl ≠ [])
    (hn : dictGet lvl LEVEL_TO_NUMBER = some n) :
    updateCycle w = (.data lvl n MI5_RSS_URL, [MI5_RSS_URL]) := by
  unfold primaryLevel at hl
  cases hf : fetch_text w.httpErrText MI5_RSS_URL w.mi5 with
  | error e =>
    simp only [hf] at hl
    exact Option.noConfusion hl
  | ok xml =>
    simp only [hf] at hl
    simp [updateCycle, hf, hl, hne, hn]

/-- C1: per cycle the primary (MI5 feed) URL is always fetched first; when
its fetch succeeds and its parse yields a known level, the pipeline returns
that reading and the secondary URL is never fetched; every exhausted primary
attempt leads to exactly one secondary attempt (the cycle becomes the GOV.UK
attempt, not an immediate failure); at most two fetches happen and no URL is
fetched twice. -/
theorem c1_strict_source_order (w : World) :
    ((updateCycle w).2 = [MI5_RSS_URL] ∨
      (updateCycle w).2 = [MI5_RSS_URL, GOVUK_URL]) ∧
    (updateCycle w).2.length ≤ 2 ∧
    (∀ lvl, primaryLevel w = some lvl → lvl ∈ canonicalWords →
      ∃ n, dictGet lvl LEVEL_TO_NUMBER = some n ∧
        updateCycle w = (.data lvl n MI5_RSS_URL, [MI5_RSS_URL])) ∧
    (primaryKnown w = false →
      updateCycle w = (govukAttempt w, [MI5_RSS_URL, GOVUK_URL])) := by
  have main : ∀ lvl, primaryLevel w = some lvl → lvl ∈ canonicalWords →
      ∃ n, dictGet lvl LEVEL_TO_NUMBER = some n ∧
        updateCycle w = (.data lvl n MI5_RSS_URL, [MI5_RSS_URL]) := by
    intro lvl hl hc
    obtain ⟨n, hn⟩ := Option.isSome_iff_exists.mp (canonical_dict_isSome lvl hc)
    exact ⟨n, hn, updateCycle_primary w lvl n hl (canonical_ne_nil lvl hc) hn⟩
  have htrace : (updateCycle w).2 = [MI5_RSS_URL] ∨
      (updateCycle w).2 = [MI5_RSS_URL, GOVUK_URL] := by
    cases hk : primaryKnown w with
    | false =>
      right
      rw [updateCycle_secondary w hk]
    | true =>
      have hk2 : levelOk (primaryLevel w) = true := hk
      obtain ⟨l, hl, hne, n, hn⟩ := levelOk_true hk2
      left
      rw [updateCycle_primary w l n hl hne hn]
  have hlen : (updateCycle w).2.length ≤ 2 := by
    rcases htrace with h | h <;> simp [h]
  exact ⟨htrace, hlen, main, fun hp => updateCycle_secondary w hp⟩

/-- A world in which the MI5 feed succeeds with a valid document. -/
def wA : World where
  mi5 := .response 200 (chars "feed-xml")
  govuk := .transportError (chars "offline")
  parseXml := pxDemo
  httpErrText := fun _ => []

/-- Witness for C1: a successful primary attempt returns the MI5 reading and
fetches only the MI5 URL. -/
theorem c1_witness :
    ∃ n, dictGet (chars "SUBSTANTIAL") LEVEL_TO_NUMBER = some n ∧
      updateCycle wA = (.data (chars "SUBSTANTIAL") n MI5_RSS_URL, [MI5_RSS_URL]) :=
  (c1_strict_source_order wA).2.2.1 (chars "SUBSTANTIAL") (by decide) (by decide)

/-- C5: when the primary attempt is exhausted and the secondary attempt also
fails — secondary fetch error, or page retrieved but the parsed level fails
the guard — the cycle ends in the typed `UpdateFailed` value whose message
keeps the original failure's message behind the `All sources failed: `
prefix. -/
theorem c5_both_sources_exhausted (w : World) (hp : primaryKnown w = false) :
    (∀ e, fetch_text w.httpErrText GOVUK_URL w.govuk = .error e →
      async_update_data w
        = .failed (chars "All sources failed: " ++ FetchError.message e)) ∧
    (∀ body, fetch_text w.httpErrText GOVUK_URL w.govuk = .ok body →
      levelOk (parse_govuk_level body) = false →
      async_update_data w
        = .failed (chars "All sources failed: Fetched GOV.UK but could not parse a known level")) := by
  have hsec : async_update_data w = govukAttempt w := by
    unfold async_update_data
    rw [updateCycle_secondary w hp]
  constructor
  · intro e he
    rw [hsec]
    simp [govukAttempt, he]
  · intro body hb hl
    rw [hsec]
    cases hpg : parse_govuk_level body with
    | none => simp [govukAttempt, hb, hpg]
    | some lvl =>
      rw [hpg] at hl
      rcases levelOk_false_some hl with hnil | hd
      · simp [govukAttempt, hb, hpg, hnil]
      · by_cases hnil : lvl = []
        · simp [govukAttempt, hb, hpg, hnil]
        · simp [govukAttempt, hb, hpg, hnil, hd]

/-- A world in which both fetches fail at the transport level. -/
def wC : World where
  mi5 := .transportError (chars "mi5 timed out")
  govuk := .transportError (chars "govuk timed out")
  parseXml := fun _ => none
  httpErrText := fun _ => []

/-- Witness for C5: both sources down yields the wrapped failure message. -/
theorem c5_witness :
    async_update_data wC = .failed (chars "All sources failed: "
      ++ FetchError.message (.networkError (chars "govuk timed out"))) :=
  (c5_both_sources_exhausted wC (by decide)).1
    (.networkError (chars "govuk timed out")) rfl

/-- C7: every returned reading is well-formed — its level is one of the five
canonical words, its number is exactly `LEVEL_TO_NUMBER` at that level (hence
in `1..5`), and its source URL is the URL of the attempt whose parse produced
the level. -/
theorem c7_reading_wellformed (w : World) (lvl : List Char) (n : Nat)
    (src : List Char) (h : async_update_data w = .data lvl n src) :
    lvl ∈ canonicalWords ∧ dictGet lvl LEVEL_TO_NUMBER = some n ∧
    1 ≤ n ∧ n ≤ 5 ∧
    ((src = MI5_RSS_URL ∧ primaryLevel w = some lvl) ∨
      (src = GOVUK_URL ∧ secondaryLevel w = some lvl)) := by
  unfold async_update_data at h
  cases hk : primaryKnown w with
  | true =>
    have hk2 : levelOk (primaryLevel w) = true := hk
    obtain ⟨l, hl, hne, n2, hn⟩ := levelOk_true hk2
    rw [updateCycle_primary w l n2 hl hne hn] at h
    simp only [UpdateResult.data.injEq] at h
    obtain ⟨rfl, rfl, rfl⟩ := h
    have hc := primaryLevel_canonical hl
    have hb := canonical_dict_bounds _ hc _ hn
    exact ⟨hc, hn, hb.1, hb.2, Or.inl ⟨rfl, hl⟩⟩
  | false =>
    rw [updateCycle_secondary w hk] at h
    simp only at h
    unfold govukAttempt at h
    cases hf : fetch_text w.httpErrText GOVUK_URL w.govuk with
    | error e =>
      simp only [hf] at h
      exact UpdateResult.noConfusion h
    | ok body =>
      simp only [hf] at h
      cases hpg : parse_govuk_level body with
      | none =>
        simp only [hpg] at h
        exact UpdateResult.noConfusion h
      | some l =>
        simp only [hpg] at h
        by_cases hnil : l = []
        · rw [if_pos hnil] at h
          exact UpdateResult.noConfusion h
        · rw [if_neg hnil] at h
          cases hd : dictGet l LEVEL_TO_NUMBER with
          | none =>
            simp only [hd] at h
            exact UpdateResult.noConfusion h
          | some k =>
            simp only [hd, UpdateResult.data.injEq] at h
            obtain ⟨rfl, rfl, rfl⟩ := h
            have hc := parse_govuk_canonical hpg
            have hb := canonical_dict_bounds _ hc _ hd
            refine ⟨hc, hd, hb.1, hb.2, Or.inr ⟨rfl, ?_⟩⟩
            unfold secondaryLevel
            rw [hf]
            exact hpg

/-- Witness for C7 at a concrete successful cycle. -/
theorem c7_witness :
    (chars "SUBSTANTIAL") ∈ canonicalWords ∧
    dictGet (chars "SUBSTANTIAL") LEVEL_TO_NUMBER = some 3 := by
  have H := c7_reading_wellformed wA (chars "SUBSTANTIAL") 3 MI5_RSS_URL (by decide)
  exact ⟨H.1, H.2.1⟩

/-- C4 counterexample: a 304 response (non-2xx, below 400) is returned as a
success with its body — `raise_for_status` only raises at statuses `>= 400`
— contradicting "every other non-2xx status yields http-error". -/
theorem c4_counterexample :
    fetch_text (fun _ => []) (chars "https://example.org")
      (.response 304 (chars "cached page")) = .ok (chars "cached page") ∧
    ¬(200 ≤ 304 ∧ 304 < 300) :=
  ⟨rfl, by omega⟩

/-- C4 (amended): transport failures classify as network errors; a 403
yields the distinct forbidden failure whose message is built from the URL
only (independent of the response body); any other status `>= 400` yields
the http-error classification; and every status below 400 (not only 2xx)
returns the body. -/
theorem c4_fetch_classification (f : Nat → List Char) (url body m : List Char)
    (st : Nat) :
    (fetch_text f url (.transportError m) = .error (.networkError m)) ∧
    (st = 403 →
      fetch_text f url (.response st body) = .error (.forbidden (forbiddenMessage url))) ∧
    (∀ b1 b2, fetch_text f url (.response 403 b1) = fetch_text f url (.response 403 b2)) ∧
    (st ≠ 403 → 400 ≤ st →
      fetch_text f url (.response st body) = .error (.httpError (f st))) ∧
    (st < 400 → fetch_text f url (.response st body) = .ok body) := by
  refine ⟨rfl, ?_, ?_, ?_, ?_⟩
  · intro h
    subst h
    rfl
  · intro b1 b2
    rfl
  · intro h1 h2
    simp [fetch_text, h1, h2]
  · intro h
    have h1 : ¬st = 403 := by omega
    have h2 : ¬400 ≤ st := by omega
    simp [fetch_text, h1, h2]

/-- Witness for C4 (amended) at status 500. -/
theorem c4_witness :
    fetch_text (fun _ => chars "server error") (chars "https://u")
      (.response 500 (chars "b")) = .error (.httpError (chars "server error")) :=
  (c4_fetch_classification (fun _ => chars "server error") (chars "https://u")
    (chars "b") (chars "m") 500).2.2.2.1 (by decide) (by decide)

/-- C8: `LEVEL_TO_NUMBER` is a bijection between the five canonical levels
and `1..5`, monotone along the order LOW < MODERATE < SUBSTANTIAL < SEVERE <
CRITICAL (the lookups along `canonicalWords` are exactly `1,2,3,4,5`). -/
theorem c8_ordinal_bijection :
    (canonicalWords.map (fun wd => dictGet wd LEVEL_TO_NUMBER)
      = [some 1, some 2, some 3, some 4, some 5]) ∧
    (LEVEL_TO_NUMBER.map Prod.fst = canonicalWords) ∧
    (∀ w1 ∈ canonicalWords, ∀ w2 ∈ canonicalWords,
      dictGet w1 LEVEL_TO_NUMBER = dictGet w2 LEVEL_TO_NUMBER → w1 = w2) ∧
    (∀ n : Nat, (∃ wd ∈ canonicalWords, dictGet wd LEVEL_TO_NUMBER = some n) ↔
      (1 ≤ n ∧ n ≤ 5)) := by
  refine ⟨by decide, by decide, by decide, ?_⟩
  intro n
  constructor
  · rintro ⟨wd, hm, hd⟩
    exact canonical_dict_bounds wd hm n hd
  · rintro ⟨h1, h5⟩
    interval_cases n
    · exact ⟨chars "LOW", by decide, by decide⟩
    · exact ⟨chars "MODERATE", by decide, by decide⟩
    · exact ⟨chars "SUBSTANTIAL", by decide, by decide⟩
    · exact ⟨chars "SEVERE", by decide, by decide⟩
    · exact ⟨chars "CRITICAL", by decide, by decide⟩

/-- Witness for C8: ordinal 3 is attained. -/
theorem c8_witness : ∃ wd ∈ canonicalWords, dictGet wd LEVEL_TO_NUMBER = some 3 :=
  (c8_ordinal_bijection.2.2.2 3).mpr (by omega)

/-- C9: whenever the Normalizer — and hence either parser — produces a
level, that level is one of the five known levels and passes the pipeline's
guard `level and level in LEVEL_TO_NUMBER`, so the defensive rejection
branch never fires on a parser-produced level. -/
theorem c9_closed_vocabulary (t lvl : List Char) :
    (normalize_level t = some lvl →
      lvl ∈ canonicalWords ∧ levelOk (some lvl) = true) ∧
    (∀ px, parse_mi5_rss_level px t = some lvl → levelOk (some lvl) = true) ∧
    (parse_govuk_level t = some lvl → levelOk (some lvl) = true) := by
  refine ⟨?_, ?_, ?_⟩
  · intro h
    have hc := normalize_canonical h
    exact ⟨hc, canonical_levelOk lvl hc⟩
  · intro px h
    exact canonical_levelOk lvl (parse_mi5_canonical h)
  · intro h
    exact canonical_levelOk lvl (parse_govuk_canonical h)

/-- Witness for C9. -/
theorem c9_witness : levelOk (some (chars "SEVERE")) = true :=
  ((c9_closed_vocabulary (chars "threat is severe") (chars "SEVERE")).1 (by decide)).2
